import Mathlib

/-
Verification of scripts/merge_and_score.py (desloppify-code-health-auditor).

Modelling notes:
* Python floats are modelled exactly with the rationals; `round(x, 2)` is
  modelled by round-half-to-even at two decimals over the rationals.
* Python strings are modelled as Lean strings (lists of characters);
  `str.lower`/`str.strip` are modelled per character (ASCII case folding),
  and the regular expressions of `normalize_text` are modelled by explicit
  run-collapsing functions over the character list.
* A raw finding record (a JSON object) is modelled as a structure of
  optional fields, mirroring every `record.get(key, default)` access of the
  program; the `_source` tag attached by the loader is the `source` field.
* `line` holds an integer when present (the program ignores non-integer
  values through its `isinstance` checks, which is the same as absence).
-/

namespace MS

def trimWsL (l : List Char) : List Char :=
  ((l.dropWhile Char.isWhitespace).reverse.dropWhile Char.isWhitespace).reverse

def pyStrip (s : String) : String := String.mk (trimWsL s.data)

def charLowAlnum (c : Char) : Bool :=
  (decide ('a' ≤ c) && decide (c ≤ 'z')) || (decide ('0' ≤ c) && decide (c ≤ '9'))

/-- One regex substitution pass: every maximal run of characters satisfying
`p` is replaced by a single space (the boolean argument tracks whether we are
inside such a run). -/
def sub_runs (p : Char → Bool) : Bool → List Char → List Char
  | _, [] => []
  | inRun, c :: rest =>
      if p c then
        if inRun then sub_runs p true rest
        else ' ' :: sub_runs p true rest
      else c :: sub_runs p false rest

/-- `normalize_text`: lowercase, collapse non-alphanumeric runs to a single
space, collapse whitespace runs, strip. -/
def normalize_text (s : String) : String :=
  String.mk (trimWsL (sub_runs Char.isWhitespace false
    (sub_runs (fun c => !(charLowAlnum c)) false (s.data.map Char.toLower))))

/-- Split on the literal separator " || " (Python `str.split(" || ")`),
scanning left to right. -/
def splitSep4 : List Char → List (List Char)
  | ' ' :: '|' :: '|' :: ' ' :: rest => [] :: splitSep4 rest
  | c :: rest =>
      match splitSep4 rest with
      | [] => [[c]]
      | p :: ps => (c :: p) :: ps
  | [] => [[]]

/-- Python `sep.join(parts)`. -/
def joinWith (sep : String) : List String → String
  | [] => ""
  | [s] => s
  | s :: rest => s ++ sep ++ joinWith sep rest

/-- The seen-set loop of `merge_evidence`: keep non-empty parts not seen
before, in first-seen order. -/
def evParts : List String → List String → List String
  | [], _ => []
  | p :: ps, seen =>
      if p ≠ "" ∧ p ∉ seen then p :: evParts ps (p :: seen) else evParts ps seen

def merge_evidence (old new : String) : String :=
  joinWith " || "
    (evParts (((splitSep4 old.data) ++ (splitSep4 new.data)).map
      (fun l => String.mk (trimWsL l))) [])

/-- First-occurrence lookup in an association list (Python dict access;
keys are unique in every dict this models). -/
def alookup {α : Type} : List (String × α) → String → Option α
  | [], _ => none
  | (k', x) :: rest, k => if k' = k then some x else alookup rest k

/-- Python `dict.get(key, default)` over an association list. -/
def dget {α : Type} (d : List (String × α)) (k : String) (v : α) : α :=
  (alookup d k).getD v

def DETECTORS : List String :=
  ["dead_unused_code", "duplication", "complexity_size",
   "dependency_coupling", "naming_consistency", "debug_logging_leftovers"]

def TIER_WEIGHT : List (String × ℚ) := [("T1", 20), ("T2", 10), ("T3", 4), ("T4", 1)]
def SEVERITY_MULTIPLIER : List (String × ℚ) := [("high", 1), ("med", 6/10), ("low", 3/10)]
def CONFIDENCE_MULTIPLIER : List (String × ℚ) := [("high", 1), ("med", 75/100), ("low", 5/10)]

def SEVERITY_RANK : List (String × ℕ) := [("high", 3), ("med", 2), ("low", 1)]
def CONFIDENCE_RANK : List (String × ℕ) := [("high", 3), ("med", 2), ("low", 1)]
def TIER_RANK : List (String × ℕ) := [("T1", 4), ("T2", 3), ("T3", 2), ("T4", 1)]

def stronger (current candidate : String) (rank : List (String × ℕ)) : String :=
  if dget rank candidate 0 > dget rank current 0 then candidate else current

/-- A raw finding record as loaded from JSON; each optional field mirrors a
`record.get(...)` access of the program, `source` is the `_source` tag. -/
structure RawRecord where
  id : Option String := none
  tier : Option String := none
  detector : Option String := none
  severity : Option String := none
  file : Option String := none
  line : Option Int := none
  summary : Option String := none
  evidence : Option String := none
  recommended_fix : Option String := none
  confidence : Option String := none
  status : Option String := none
  conflict_note : Option String := none
  needs_validation : Option Bool := none
  source : String := ""
deriving DecidableEq

structure Merged where
  id : String
  tier : String
  detector : String
  severity : String
  file : String
  line : Option Int
  summary : String
  evidence : String
  recommended_fix : String
  confidence : String
  status : String
  conflict_note : String
  needs_validation : Bool
  sources : List String
deriving DecidableEq

def normalized_fingerprint (r : RawRecord) : String :=
  pyStrip (r.detector.getD "") ++ "|" ++ pyStrip (r.file.getD "") ++ "|" ++
    normalize_text (r.summary.getD "")

def initial_record (r : RawRecord) : Merged :=
  { id := (if pyStrip (r.id.getD "") = "" then "pending" else pyStrip (r.id.getD ""))
    tier := pyStrip (r.tier.getD "T4")
    detector := pyStrip (r.detector.getD "")
    severity := pyStrip (r.severity.getD "low")
    file := pyStrip (r.file.getD "")
    line := r.line
    summary := pyStrip (r.summary.getD "")
    evidence := pyStrip (r.evidence.getD "")
    recommended_fix := pyStrip (r.recommended_fix.getD "")
    confidence := pyStrip (r.confidence.getD "low")
    status := pyStrip (r.status.getD "open")
    conflict_note := pyStrip (r.conflict_note.getD "")
    needs_validation := r.needs_validation.getD false
    sources := [r.source] }

/-- The `str(candidate.get(field, old_value)).strip()` accesses of
`merge_record`. -/
def newTier (e : Merged) (c : RawRecord) : String := pyStrip (c.tier.getD e.tier)

def newSeverity (e : Merged) (c : RawRecord) : String := pyStrip (c.severity.getD e.severity)

def newConfidence (e : Merged) (c : RawRecord) : String := pyStrip (c.confidence.getD e.confidence)

def newSummary (c : RawRecord) : String := pyStrip (c.summary.getD "")

def newFix (c : RawRecord) : String := pyStrip (c.recommended_fix.getD "")

def newStatus (c : RawRecord) : String := pyStrip (c.status.getD "open")

/-- The `conflicts` list accumulated by `merge_record`, in program order. -/
def conflictsOf (e : Merged) (c : RawRecord) : List String :=
  (if newTier e c ≠ e.tier then ["tier: " ++ e.tier ++ " vs " ++ newTier e c] else []) ++
  (if newSeverity e c ≠ e.severity
    then ["severity: " ++ e.severity ++ " vs " ++ newSeverity e c] else []) ++
  (if newConfidence e c ≠ e.confidence
    then ["confidence: " ++ e.confidence ++ " vs " ++ newConfidence e c] else []) ++
  (if newFix c ≠ "" ∧ newFix c ≠ e.recommended_fix then ["recommended_fix differs"] else []) ++
  (if newStatus c ≠ e.status then ["status: " ++ e.status ++ " vs " ++ newStatus c] else [])

def strLtB : List Char → List Char → Bool
  | [], [] => false
  | [], _ :: _ => true
  | _ :: _, [] => false
  | a :: as, b :: bs => if a < b then true else if b < a then false else strLtB as bs

def strLeB (a b : String) : Bool := !(strLtB b.data a.data)

/-- Python `sorted(set(conflicts))`: the distinct conflict strings in
ascending lexicographic order. -/
def sortedDedup (l : List String) : List String :=
  List.insertionSort (fun a b => strLeB a b = true) l.dedup

/-- Python `s.strip("; ")`: drop leading and trailing semicolons/spaces. -/
def stripSemiSpL (l : List Char) : List Char :=
  ((l.dropWhile (fun c => c = ';' ∨ c = ' ')).reverse.dropWhile
    (fun c => c = ';' ∨ c = ' ')).reverse

def mergedNote (oldNote detail : String) : String :=
  if oldNote ≠ "" then pyStrip (String.mk (stripSemiSpL (oldNote ++ "; " ++ detail).data))
  else detail

/-- Pure version of `merge_record(existing, candidate)`. -/
def merge_record (e : Merged) (c : RawRecord) : Merged :=
  let cs := conflictsOf e c
  { e with
    tier := stronger e.tier (newTier e c) TIER_RANK
    severity := stronger e.severity (newSeverity e c) SEVERITY_RANK
    confidence := stronger e.confidence (newConfidence e c) CONFIDENCE_RANK
    line :=
      match c.line, e.line with
      | some n, none => if 0 < n then some n else none
      | some n, some m => if 0 < n ∧ n < m then some n else some m
      | none, old => old
    summary := if (newSummary c).length > e.summary.length then newSummary c else e.summary
    evidence := merge_evidence e.evidence (pyStrip (c.evidence.getD ""))
    recommended_fix :=
      if newFix c ≠ "" ∧ newFix c ≠ e.recommended_fix ∧
          (newFix c).length > e.recommended_fix.length
      then newFix c else e.recommended_fix
    status :=
      if newStatus c ≠ e.status then
        (if e.status = "open" ∨ newStatus c = "open" then "open" else e.status)
      else e.status
    needs_validation :=
      if cs ≠ [] then true
      else (if c.needs_validation.getD false then true else e.needs_validation)
    conflict_note :=
      if cs ≠ [] then mergedNote e.conflict_note (joinWith "; " (sortedDedup cs))
      else e.conflict_note
    sources := e.sources ++ [c.source] }

def penalty (m : Merged) : ℚ :=
  dget TIER_WEIGHT m.tier 1 * dget SEVERITY_MULTIPLIER m.severity (3/10) *
    dget CONFIDENCE_MULTIPLIER m.confidence (5/10)

/-- Round half to even (Python `round`), applied at two decimals below. -/
def rhe (x : ℚ) : ℤ :=
  if x - (⌊x⌋ : ℚ) < 1/2 then ⌊x⌋
  else if 1/2 < x - (⌊x⌋ : ℚ) then ⌊x⌋ + 1
  else if ⌊x⌋ % 2 = 0 then ⌊x⌋ else ⌊x⌋ + 1

def round2 (x : ℚ) : ℚ := ((rhe (100 * x) : ℤ) : ℚ) / 100

structure Scores where
  overall_score : ℚ
  strict_score : ℚ
deriving DecidableEq

def score (records : List Merged) : Scores :=
  let strict_penalty := (records.map penalty).sum
  let open_penalty := ((records.filter (fun r => r.status = "open")).map penalty).sum
  let wontfix_penalty := ((records.filter (fun r => r.status = "wontfix")).map penalty).sum
  { overall_score :=
      round2 (max 0 (min 100 (100 - (open_penalty + 5/10 * wontfix_penalty))))
    strict_score := round2 (max 0 (min 100 (100 - strict_penalty))) }

structure SortKey where
  tw : ℚ
  sev : ℤ
  conf : ℤ
  pen : ℚ
  file : String
  line : ℤ

def priority_sort_key (m : Merged) : SortKey :=
  { tw := -(dget TIER_WEIGHT m.tier 1)
    sev := -((dget SEVERITY_RANK m.severity 1 : ℕ) : ℤ)
    conf := -((dget CONFIDENCE_RANK m.confidence 1 : ℕ) : ℤ)
    pen := -(penalty m)
    file := m.file
    line := m.line.getD (10 ^ 9) }

/-- Lexicographic comparison of sort keys (Python tuple order). -/
def keyLe (a b : SortKey) : Bool :=
  if a.tw ≠ b.tw then decide (a.tw < b.tw)
  else if a.sev ≠ b.sev then decide (a.sev < b.sev)
  else if a.conf ≠ b.conf then decide (a.conf < b.conf)
  else if a.pen ≠ b.pen then decide (a.pen < b.pen)
  else if a.file ≠ b.file then strLtB a.file.data b.file.data
  else decide (a.line ≤ b.line)

/-- `merged.sort(key=priority_sort_key)`: a stable ascending sort. -/
def sortMerged (ms : List Merged) : List Merged :=
  List.insertionSort (fun a b => keyLe (priority_sort_key a) (priority_sort_key b) = true) ms

def digitChar (n : ℕ) : Char := Char.ofNat (48 + n % 10)

def digitsAux : ℕ → ℕ → List Char
  | 0, _ => []
  | fuel + 1, n => if n < 10 then [digitChar n] else digitsAux fuel (n / 10) ++ [digitChar (n % 10)]

def natStr (n : ℕ) : String := String.mk (digitsAux (n + 1) n)

/-- Python `f"F{idx:03d}"`. -/
def fmtId (n : ℕ) : String :=
  let s := natStr n
  "F" ++ (if s.length < 3 then String.mk (List.replicate (3 - s.length) '0') ++ s else s)

def assignIds : ℕ → List Merged → List Merged
  | _, [] => []
  | n, m :: rest => { m with id := fmtId n } :: assignIds (n + 1) rest

/-- Update the value stored at the first occurrence of key `k` (Python
`buckets[key]` assignment; bucket keys are unique by construction). -/
def updateBucket (k : String) (r : RawRecord) : List (String × Merged) → List (String × Merged)
  | [] => []
  | (k', m) :: rest =>
      if k' = k then (k', merge_record m r) :: rest else (k', m) :: updateBucket k r rest

/-- One iteration of the main loop: seed a new bucket or fold into the
existing one (Python dicts append new keys at the end). -/
def foldStep (bs : List (String × Merged)) (r : RawRecord) : List (String × Merged) :=
  if (alookup bs (normalized_fingerprint r)).isSome then
    updateBucket (normalized_fingerprint r) r bs
  else bs ++ [(normalized_fingerprint r, initial_record r)]

def mergeAll (rs : List RawRecord) : List (String × Merged) := rs.foldl foldStep []

def mergedList (rs : List RawRecord) : List Merged := (mergeAll rs).map Prod.snd

def rankedFindings (rs : List RawRecord) : List Merged := assignIds 1 (sortMerged (mergedList rs))

def topOpen (ms : List Merged) : List Merged := (ms.filter (fun r => r.status = "open")).take 10

structure Plan where
  quick_wins : List String
  refactors : List String
deriving DecidableEq

def isQuickWin (m : Merged) : Bool :=
  decide (m.tier = "T3" ∨ m.tier = "T4" ∨ m.detector = "naming_consistency" ∨
    m.detector = "debug_logging_leftovers")

def planItem (m : Merged) : String := m.id ++ ": " ++ m.summary

def remediation_plan : List Merged → Plan
  | [] => { quick_wins := [], refactors := [] }
  | m :: rest =>
      let p := remediation_plan rest
      if isQuickWin m then { p with quick_wins := planItem m :: p.quick_wins }
      else { p with refactors := planItem m :: p.refactors }

/-- The scores of the final report (the program scores the sorted,
id-assigned merged list). -/
def reportScores (rs : List RawRecord) : Scores := score (rankedFindings rs)

/-- The remediation plan of the final report: the program applies
`remediation_plan` to `top_open` only. -/
def reportPlan (rs : List RawRecord) : Plan := remediation_plan (topOpen (rankedFindings rs))

inductive Json where
  | null : Json
  | bool : Bool → Json
  | num : ℚ → Json
  | str : String → Json
  | arr : List Json → Json
  | obj : List (String × Json) → Json

def jlookup : List (String × Json) → String → Option Json
  | [], _ => none
  | (k, v) :: rest, key => if k = key then some v else jlookup rest key

/-- The container-shape dispatch of `load_findings`: a dict with a
`findings` list, or a top-level list; anything else is skipped. -/
def recordsOf : Json → Option (List Json)
  | .obj fields =>
      match jlookup fields "findings" with
      | some (.arr xs) => some xs
      | _ => none
  | .arr xs => some xs
  | _ => none

def isObjJ : Json → Bool
  | .obj _ => true
  | _ => false

/-- `load_findings`: each source contributes its dict-shaped records tagged
with the source path. -/
def load_findings : List (String × Json) → List (Json × String)
  | [] => []
  | (path, payload) :: rest =>
      (match recordsOf payload with
       | some records => (records.filter isObjJ).map (fun r => (r, path))
       | none => []) ++ load_findings rest

/-! ### Lemmas about two-decimal rounding and clamping -/

lemma rhe_ge_floor (x : ℚ) : ⌊x⌋ ≤ rhe x := by
  unfold rhe; split_ifs <;> omega

lemma rhe_nonneg (x : ℚ) (h : 0 ≤ x) : 0 ≤ rhe x :=
  le_trans (Int.floor_nonneg.mpr h) (rhe_ge_floor x)

lemma rhe_le (x : ℚ) (n : ℤ) (h : x ≤ (n : ℚ)) : rhe x ≤ n := by
  have hfl : ⌊x⌋ ≤ n := by
    have := Int.floor_le_floor h
    simpa using this
  unfold rhe
  split_ifs with h1 h2 h3
  · exact hfl
  · have hx : (⌊x⌋ : ℚ) + 1/2 < (n : ℚ) := by
      have := Int.floor_le x
      linarith
    have : ⌊x⌋ < n := by
      have : (⌊x⌋ : ℚ) < (n : ℚ) := by linarith
      exact_mod_cast this
    omega
  · exact hfl
  · have heq : x - (⌊x⌋ : ℚ) = 1/2 := le_antisymm (not_lt.mp h2) (not_lt.mp h1)
    have hx : (⌊x⌋ : ℚ) + 1/2 ≤ (n : ℚ) := by linarith
    have : ⌊x⌋ < n := by
      have : (⌊x⌋ : ℚ) < (n : ℚ) := by linarith
      exact_mod_cast this
    omega

lemma round2_bounds (x : ℚ) (h0 : 0 ≤ x) (h1 : x ≤ 100) :
    0 ≤ round2 x ∧ round2 x ≤ 100 := by
  have h2 : (0 : ℚ) ≤ 100 * x := by linarith
  have h3 : 100 * x ≤ ((10000 : ℤ) : ℚ) := by push_cast; linarith
  have g1 : 0 ≤ rhe (100 * x) := rhe_nonneg _ h2
  have g2 : rhe (100 * x) ≤ 10000 := rhe_le _ _ h3
  constructor
  · unfold round2
    apply div_nonneg _ (by norm_num)
    exact_mod_cast g1
  · unfold round2
    rw [div_le_iff₀ (by norm_num)]
    have : ((rhe (100 * x) : ℤ) : ℚ) ≤ ((10000 : ℤ) : ℚ) := by exact_mod_cast g2
    push_cast at this ⊢
    linarith

lemma clamp_bounds (t : ℚ) : 0 ≤ max 0 (min 100 t) ∧ max 0 (min 100 t) ≤ 100 :=
  ⟨le_max_left _ _, max_le (by norm_num) (min_le_left _ _)⟩

lemma round2_int (n : ℤ) : round2 ((n : ℚ)) = (n : ℚ) := by
  have hfl : ⌊(100 : ℚ) * (n : ℚ)⌋ = 100 * n := by
    have : ((100 * n : ℤ) : ℚ) = (100 : ℚ) * (n : ℚ) := by push_cast; ring
    rw [← this, Int.floor_intCast]
  have hr : rhe ((100 : ℚ) * (n : ℚ)) = 100 * n := by
    unfold rhe
    rw [hfl]
    have : (100 : ℚ) * (n : ℚ) - ((100 * n : ℤ) : ℚ) = 0 := by push_cast; ring
    rw [this]
    norm_num
  unfold round2
  rw [hr]
  push_cast
  ring

/-- Evaluation helper: both score fields, given the clamped penalties as
integers. -/
lemma score_eq (records : List Merged) (a b : ℤ)
    (ha : max 0 (min 100 (100 -
      (((records.filter (fun r => r.status = "open")).map penalty).sum +
        5/10 * ((records.filter (fun r => r.status = "wontfix")).map penalty).sum))) = (a : ℚ))
    (hb : max 0 (min 100 (100 - (records.map penalty).sum)) = (b : ℚ)) :
    score records = { overall_score := (a : ℚ), strict_score := (b : ℚ) } := by
  unfold score
  dsimp only
  rw [ha, hb, round2_int, round2_int]

/-! ### C1 -/

/-- Scenario A of the specification: a single open `dead_unused_code`
finding with tier T1, severity high, confidence high. -/
def scenarioA : RawRecord :=
  { tier := some "T1", detector := some "dead_unused_code", severity := some "high",
    file := some "a.go", line := some 10, summary := some "unused func",
    confidence := some "high", status := some "open", source := "s1" }

def scenarioAMerged : Merged :=
  { id := "F001", tier := "T1", detector := "dead_unused_code", severity := "high",
    file := "a.go", line := some 10, summary := "unused func", evidence := "",
    recommended_fix := "", confidence := "high", status := "open", conflict_note := "",
    needs_validation := false, sources := ["s1"] }

/-- C1: the penalty of a merged record is the product of the tier weight,
the severity multiplier and the confidence multiplier, with tables
T1=20, T2=10, T3=4, T4=1; high=1, med=0.6, low=0.3; high=1, med=0.75,
low=0.5; both aggregate scores are clamped to [0, 100] (so they lie in
[0, 100] for every input list, pathological or not); and the single-record
Scenario A input merges to one record with strict score 80 and overall
score 80. -/
theorem C1_penalty_tables_and_score_bounds :
    (∀ records : List Merged,
      0 ≤ (score records).strict_score ∧ (score records).strict_score ≤ 100 ∧
      0 ≤ (score records).overall_score ∧ (score records).overall_score ≤ 100) ∧
    (∀ m : Merged, penalty m =
      dget TIER_WEIGHT m.tier 1 * dget SEVERITY_MULTIPLIER m.severity (3/10) *
        dget CONFIDENCE_MULTIPLIER m.confidence (5/10)) ∧
    (dget TIER_WEIGHT "T1" 1 = 20 ∧ dget TIER_WEIGHT "T2" 1 = 10 ∧
      dget TIER_WEIGHT "T3" 1 = 4 ∧ dget TIER_WEIGHT "T4" 1 = 1) ∧
    (dget SEVERITY_MULTIPLIER "high" (3/10) = 1 ∧
      dget SEVERITY_MULTIPLIER "med" (3/10) = 6/10 ∧
      dget SEVERITY_MULTIPLIER "low" (3/10) = 3/10) ∧
    (dget CONFIDENCE_MULTIPLIER "high" (5/10) = 1 ∧
      dget CONFIDENCE_MULTIPLIER "med" (5/10) = 75/100 ∧
      dget CONFIDENCE_MULTIPLIER "low" (5/10) = 5/10) ∧
    (rankedFindings [scenarioA]).length = 1 ∧
    reportScores [scenarioA] = { overall_score := 80, strict_score := 80 } := by
  refine ⟨?_, ?_, ?_, ?_, ?_, ?_, ?_⟩
  · intro records
    unfold score
    dsimp only
    refine ⟨?_, ?_, ?_, ?_⟩
    · exact (round2_bounds _ (clamp_bounds _).1 (clamp_bounds _).2).1
    · exact (round2_bounds _ (clamp_bounds _).1 (clamp_bounds _).2).2
    · exact (round2_bounds _ (clamp_bounds _).1 (clamp_bounds _).2).1
    · exact (round2_bounds _ (clamp_bounds _).1 (clamp_bounds _).2).2
  · intro m; rfl
  · exact ⟨rfl, rfl, rfl, rfl⟩
  · exact ⟨rfl, rfl, rfl⟩
  · exact ⟨rfl, rfl, rfl⟩
  · decide
  · have h : rankedFindings [scenarioA] = [scenarioAMerged] := by decide
    have hfo : List.filter (fun r => r.status = "open") [scenarioAMerged] = [scenarioAMerged] := by
      decide
    have hfw : List.filter (fun r => r.status = "wontfix") [scenarioAMerged] =
        ([] : List Merged) := by decide
    have hs : score [scenarioAMerged] =
        { overall_score := ((80 : ℤ) : ℚ), strict_score := ((80 : ℤ) : ℚ) } := by
      refine score_eq _ 80 80 ?_ ?_
      · rw [hfo, hfw]
        norm_num [penalty, dget, alookup, scenarioAMerged, max_def, min_def]
      · norm_num [penalty, dget, alookup, scenarioAMerged, max_def, min_def]
    unfold reportScores
    rw [h, hs]
    norm_num

/-! ### Projection lemmas for `merge_record` -/

lemma merge_tier_def (e : Merged) (c : RawRecord) :
    (merge_record e c).tier = stronger e.tier (newTier e c) TIER_RANK := rfl

lemma merge_sev_def (e : Merged) (c : RawRecord) :
    (merge_record e c).severity = stronger e.severity (newSeverity e c) SEVERITY_RANK := rfl

lemma merge_conf_def (e : Merged) (c : RawRecord) :
    (merge_record e c).confidence = stronger e.confidence (newConfidence e c) CONFIDENCE_RANK := rfl

lemma merge_status_def (e : Merged) (c : RawRecord) :
    (merge_record e c).status =
      if newStatus c ≠ e.status then
        (if e.status = "open" ∨ newStatus c = "open" then "open" else e.status)
      else e.status := rfl

lemma merge_nv_def (e : Merged) (c : RawRecord) :
    (merge_record e c).needs_validation =
      if conflictsOf e c ≠ [] then true
      else (if c.needs_validation.getD false then true else e.needs_validation) := rfl

lemma merge_note_def (e : Merged) (c : RawRecord) :
    (merge_record e c).conflict_note =
      if conflictsOf e c ≠ [] then
        mergedNote e.conflict_note (joinWith "; " (sortedDedup (conflictsOf e c)))
      else e.conflict_note := rfl

lemma merge_line_def (e : Merged) (c : RawRecord) :
    (merge_record e c).line =
      match c.line, e.line with
      | some n, none => if 0 < n then some n else none
      | some n, some m => if 0 < n ∧ n < m then some n else some m
      | none, old => old := rfl

/-- A status disagreement always lands in the conflicts list. -/
lemma conflicts_ne_nil_of_status (e : Merged) (c : RawRecord) (h : newStatus c ≠ e.status) :
    conflictsOf e c ≠ [] := by
  unfold conflictsOf
  rw [if_pos h]
  intro hc
  simp [List.append_eq_nil] at hc

lemma nv_of_conflicts (e : Merged) (c : RawRecord) (h : conflictsOf e c ≠ []) :
    (merge_record e c).needs_validation = true := by
  rw [merge_nv_def, if_pos h]

/-! ### C5 -/

/-- Scenario C of the specification: same-fingerprint records with statuses
`fixed` and `open`. -/
def c5fixed : RawRecord :=
  { detector := some "d", file := some "f", summary := some "s",
    status := some "fixed", source := "p" }

def c5open : RawRecord :=
  { detector := some "d", file := some "f", summary := some "s",
    status := some "open", source := "q" }

/-- C5: when a record is folded into a merged record whose status differs a
conflict is recorded (the merged record is flagged for validation), and the
merged status is "open" when either side is "open", otherwise the current
value is kept; in particular merging a "fixed" record with a
same-fingerprint "open" record, in either fold order, yields status
"open". -/
theorem C5_status_reconciliation :
    (∀ (e : Merged) (c : RawRecord),
      (merge_record e c).status =
        (if e.status = "open" ∨ newStatus c = "open" then "open" else e.status) ∧
      (newStatus c ≠ e.status → (merge_record e c).needs_validation = true)) ∧
    (mergedList [c5fixed, c5open]).map (fun m => m.status) = ["open"] ∧
    (mergedList [c5open, c5fixed]).map (fun m => m.status) = ["open"] := by
  refine ⟨?_, by decide, by decide⟩
  intro e c
  constructor
  · rw [merge_status_def]
    by_cases h : newStatus c = e.status
    · rw [if_neg (by simp [h])]
      by_cases ho : e.status = "open"
      · rw [if_pos (Or.inl ho), ho]
      · rw [if_neg]
        rintro (h1 | h2)
        · exact ho h1
        · exact ho (h ▸ h2)
    · rw [if_pos h]
  · intro h
    exact nv_of_conflicts e c (conflicts_ne_nil_of_status e c h)

/-- C5 witness: the theorem applied to a concrete fold with differing
statuses. -/
theorem C5_status_reconciliation_witness :
    newStatus c5open ≠ (initial_record c5fixed).status ∧
    (merge_record (initial_record c5fixed) c5open).needs_validation = true :=
  ⟨by decide, ((C5_status_reconciliation.1 (initial_record c5fixed) c5open).2 (by decide))⟩

/-! ### Conflict-note machinery for C6 -/

lemma mem_dropWhile_of {α : Type} (p : α → Bool) {c : α} :
    ∀ {l : List α}, c ∈ l → p c = false → c ∈ l.dropWhile p
  | [], hc, _ => absurd hc (List.not_mem_nil c)
  | x :: xs, hc, hp => by
      by_cases hx : p x = true
      · rw [List.dropWhile_cons_of_pos hx]
        rcases List.mem_cons.mp hc with rfl | hmem
        · rw [hx] at hp; cases hp
        · exact mem_dropWhile_of p hmem hp
      · rw [List.dropWhile_cons_of_neg hx]
        exact hc

lemma mem_trimWsL {l : List Char} {ch : Char} (hm : ch ∈ l) (hch : ch.isWhitespace = false) :
    ch ∈ trimWsL l := by
  unfold trimWsL
  rw [List.mem_reverse]
  apply mem_dropWhile_of _ _ hch
  rw [List.mem_reverse]
  exact mem_dropWhile_of _ hm hch

lemma mem_stripSemiSpL {l : List Char} {ch : Char} (hm : ch ∈ l)
    (hch : decide (ch = ';' ∨ ch = ' ') = false) : ch ∈ stripSemiSpL l := by
  unfold stripSemiSpL
  rw [List.mem_reverse]
  refine mem_dropWhile_of _ ?_ hch
  rw [List.mem_reverse]
  exact mem_dropWhile_of _ hm hch

lemma string_ne_empty_of_mem {l : List Char} {ch : Char} (h : ch ∈ l) : String.mk l ≠ "" := by
  intro he
  have hd : l = [] := by
    have := congrArg String.data he
    simpa using this
  subst hd
  exact absurd h (List.not_mem_nil ch)

/-- A character that the note-assembly strip operations can never remove. -/
def goodCh (ch : Char) : Prop :=
  decide (ch = ';' ∨ ch = ' ') = false ∧ ch.isWhitespace = false

lemma head_append (p q : String) {ch : Char} {t : List Char} (h : p.data = ch :: t) :
    ∃ t', (p ++ q).data = ch :: t' :=
  ⟨t ++ q.data, by rw [String.data_append, h]; rfl⟩

/-- Every conflict string starts with a letter. -/
lemma conflicts_head (e : Merged) (c : RawRecord) :
    ∀ s ∈ conflictsOf e c, ∃ ch t, s.data = ch :: t ∧ goodCh ch := by
  intro s hs
  unfold conflictsOf at hs
  simp only [List.mem_append] at hs
  have htier : ∀ x y : String, ∃ t, ("tier: " ++ x ++ " vs " ++ y).data = 't' :: t := by
    intro x y
    obtain ⟨t1, h1⟩ := head_append "tier: " x (show "tier: ".data = 't' :: "ier: ".data from rfl)
    obtain ⟨t2, h2⟩ := head_append ("tier: " ++ x) " vs " h1
    exact head_append ("tier: " ++ x ++ " vs ") y h2
  have hsev : ∀ x y : String, ∃ t, ("severity: " ++ x ++ " vs " ++ y).data = 's' :: t := by
    intro x y
    obtain ⟨t1, h1⟩ := head_append "severity: " x (show "severity: ".data = 's' :: "everity: ".data from rfl)
    obtain ⟨t2, h2⟩ := head_append ("severity: " ++ x) " vs " h1
    exact head_append ("severity: " ++ x ++ " vs ") y h2
  have hconf : ∀ x y : String, ∃ t, ("confidence: " ++ x ++ " vs " ++ y).data = 'c' :: t := by
    intro x y
    obtain ⟨t1, h1⟩ := head_append "confidence: " x (show "confidence: ".data = 'c' :: "onfidence: ".data from rfl)
    obtain ⟨t2, h2⟩ := head_append ("confidence: " ++ x) " vs " h1
    exact head_append ("confidence: " ++ x ++ " vs ") y h2
  have hstat : ∀ x y : String, ∃ t, ("status: " ++ x ++ " vs " ++ y).data = 's' :: t := by
    intro x y
    obtain ⟨t1, h1⟩ := head_append "status: " x (show "status: ".data = 's' :: "tatus: ".data from rfl)
    obtain ⟨t2, h2⟩ := head_append ("status: " ++ x) " vs " h1
    exact head_append ("status: " ++ x ++ " vs ") y h2
  rcases hs with ((((h | h) | h) | h) | h)
  · by_cases hc : newTier e c ≠ e.tier
    · rw [if_pos hc] at h
      have hse := List.mem_singleton.mp h
      subst hse
      obtain ⟨t, ht⟩ := htier e.tier (newTier e c)
      exact ⟨'t', t, ht, by decide, by decide⟩
    · rw [if_neg hc] at h; cases h
  · by_cases hc : newSeverity e c ≠ e.severity
    · rw [if_pos hc] at h
      have hse := List.mem_singleton.mp h
      subst hse
      obtain ⟨t, ht⟩ := hsev e.severity (newSeverity e c)
      exact ⟨'s', t, ht, by decide, by decide⟩
    · rw [if_neg hc] at h; cases h
  · by_cases hc : newConfidence e c ≠ e.confidence
    · rw [if_pos hc] at h
      have hse := List.mem_singleton.mp h
      subst hse
      obtain ⟨t, ht⟩ := hconf e.confidence (newConfidence e c)
      exact ⟨'c', t, ht, by decide, by decide⟩
    · rw [if_neg hc] at h; cases h
  · by_cases hc : newFix c ≠ "" ∧ newFix c ≠ e.recommended_fix
    · rw [if_pos hc] at h
      have hse := List.mem_singleton.mp h
      subst hse
      exact ⟨'r', "ecommended_fix differs".data, rfl, by decide, by decide⟩
    · rw [if_neg hc] at h; cases h
  · by_cases hc : newStatus c ≠ e.status
    · rw [if_pos hc] at h
      have hse := List.mem_singleton.mp h
      subst hse
      obtain ⟨t, ht⟩ := hstat e.status (newStatus c)
      exact ⟨'s', t, ht, by decide, by decide⟩
    · rw [if_neg hc] at h; cases h

lemma mem_of_mem_sortedDedup {l : List String} {s : String} (h : s ∈ sortedDedup l) : s ∈ l :=
  List.mem_dedup.mp ((List.perm_insertionSort _ l.dedup).mem_iff.mp h)

lemma sortedDedup_ne_nil {l : List String} (h : l ≠ []) : sortedDedup l ≠ [] := by
  intro hs
  obtain ⟨x, xs, rfl⟩ := List.exists_cons_of_ne_nil h
  have hx : x ∈ (x :: xs).dedup := List.mem_dedup.mpr (List.mem_cons_self x xs)
  have hperm := List.perm_insertionSort (fun a b => strLeB a b = true) (x :: xs).dedup
  rw [show sortedDedup (x :: xs) = List.insertionSort (fun a b => strLeB a b = true)
    (x :: xs).dedup from rfl] at hs
  rw [hs] at hperm
  exact absurd (hperm.mem_iff.mpr hx) (List.not_mem_nil x)

lemma joinWith_head (s : String) (rest : List String) :
    ∃ t, (joinWith "; " (s :: rest)).data = s.data ++ t := by
  cases rest with
  | nil => exact ⟨[], by simp [joinWith]⟩
  | cons r rs =>
      refine ⟨"; ".data ++ (joinWith "; " (r :: rs)).data, ?_⟩
      show ((s ++ "; ") ++ joinWith "; " (r :: rs)).data = _
      rw [String.data_append, String.data_append, List.append_assoc]

/-- The assembled conflict detail contains an unstrippable character. -/
lemma detail_good (e : Merged) (c : RawRecord) (h : conflictsOf e c ≠ []) :
    ∃ ch, ch ∈ (joinWith "; " (sortedDedup (conflictsOf e c))).data ∧ goodCh ch := by
  obtain ⟨s, rest, hsd⟩ := List.exists_cons_of_ne_nil (sortedDedup_ne_nil h)
  have hmem0 : s ∈ sortedDedup (conflictsOf e c) := by
    rw [hsd]; exact List.mem_cons_self s rest
  have hsmem : s ∈ conflictsOf e c := mem_of_mem_sortedDedup hmem0
  obtain ⟨ch, t, hdata, hgood⟩ := conflicts_head e c s hsmem
  obtain ⟨t', ht'⟩ := joinWith_head s rest
  refine ⟨ch, ?_, hgood⟩
  rw [hsd, ht', hdata]
  exact List.mem_cons_self ch _

lemma note_ne_empty (e : Merged) (c : RawRecord) (h : conflictsOf e c ≠ []) :
    (merge_record e c).conflict_note ≠ "" := by
  rw [merge_note_def, if_pos h]
  obtain ⟨ch, hmem, hg1, hg2⟩ := detail_good e c h
  unfold mergedNote
  by_cases ho : e.conflict_note = ""
  · rw [if_neg (by simp [ho])]
    intro he
    have hd : (joinWith "; " (sortedDedup (conflictsOf e c))).data = [] := by
      have := congrArg String.data he
      simpa using this
    rw [hd] at hmem
    exact absurd hmem (List.not_mem_nil ch)
  · rw [if_pos ho]
    have hstep : ch ∈ stripSemiSpL
        (e.conflict_note ++ "; " ++ joinWith "; " (sortedDedup (conflictsOf e c))).data := by
      refine mem_stripSemiSpL ?_ hg1
      rw [String.data_append]
      exact List.mem_append_right _ hmem
    unfold pyStrip
    exact string_ne_empty_of_mem (mem_trimWsL hstep hg2)

/-! ### C6 -/

/-- The disagreement conditions of the claim, exactly as the program's
conflict tests read them. -/
def fieldDisagreement (e : Merged) (c : RawRecord) : Prop :=
  newTier e c ≠ e.tier ∨ newSeverity e c ≠ e.severity ∨ newConfidence e c ≠ e.confidence ∨
    (newFix c ≠ "" ∧ newFix c ≠ e.recommended_fix) ∨ newStatus c ≠ e.status

instance (e : Merged) (c : RawRecord) : Decidable (fieldDisagreement e c) := by
  unfold fieldDisagreement
  infer_instance

lemma conflicts_ne_nil_of_disagreement (e : Merged) (c : RawRecord)
    (hd : fieldDisagreement e c) : conflictsOf e c ≠ [] := by
  intro hnil
  simp only [conflictsOf, List.append_eq_nil] at hnil
  obtain ⟨⟨⟨⟨h1, h2⟩, h3⟩, h4⟩, h5⟩ := hnil
  rcases hd with h | h | h | h | h
  · rw [if_pos h] at h1; simp at h1
  · rw [if_pos h] at h2; simp at h2
  · rw [if_pos h] at h3; simp at h3
  · rw [if_pos h] at h4; simp at h4
  · rw [if_pos h] at h5; simp at h5

/-- C6: a disagreement on tier, severity, confidence, recommended fix or
status forces the merged record's needs-validation flag to true and leaves a
non-empty conflict note; and once the flag is true no later fold reverts
it. -/
theorem C6_conflicts_force_validation :
    (∀ (e : Merged) (c : RawRecord), fieldDisagreement e c →
      (merge_record e c).needs_validation = true ∧ (merge_record e c).conflict_note ≠ "") ∧
    (∀ (e : Merged) (c : RawRecord), e.needs_validation = true →
      (merge_record e c).needs_validation = true) := by
  constructor
  · intro e c hd
    have h := conflicts_ne_nil_of_disagreement e c hd
    exact ⟨nv_of_conflicts e c h, note_ne_empty e c h⟩
  · intro e c he
    rw [merge_nv_def]
    split_ifs with h1 h2 <;> simp [he]

/-- C6 witness: a concrete fold with a status disagreement. -/
theorem C6_conflicts_force_validation_witness :
    fieldDisagreement (initial_record c5fixed) c5open ∧
    ((merge_record (initial_record c5fixed) c5open).needs_validation = true ∧
      (merge_record (initial_record c5fixed) c5open).conflict_note ≠ "") ∧
    (initial_record { c5fixed with needs_validation := some true }).needs_validation = true ∧
    (merge_record (initial_record { c5fixed with needs_validation := some true })
      c5open).needs_validation = true := by
  refine ⟨by decide, C6_conflicts_force_validation.1 _ _ (by decide), by decide,
    C6_conflicts_force_validation.2 _ _ (by decide)⟩

/-! ### Rank machinery for the three strongest-wins fields -/

def tierRankOf (s : String) : ℕ := dget TIER_RANK s 0

def sevRankOf (s : String) : ℕ := dget SEVERITY_RANK s 0

def confRankOf (s : String) : ℕ := dget CONFIDENCE_RANK s 0

lemma stronger_rank_eq (cur cand : String) (rk : List (String × ℕ)) :
    dget rk (stronger cur cand rk) 0 = max (dget rk cur 0) (dget rk cand 0) := by
  unfold stronger
  split_ifs with h <;> omega

lemma merge_rank_max (get : Merged → String) (raw : RawRecord → Option String)
    (tb : List (String × ℕ))
    (hstep : ∀ e c, get (merge_record e c) =
      stronger (get e) (pyStrip ((raw c).getD (get e))) tb)
    (e : Merged) (c : RawRecord) :
    dget tb (get (merge_record e c)) 0 =
      max (dget tb (get e) 0) (dget tb (pyStrip ((raw c).getD (get e))) 0) := by
  rw [hstep]
  exact stronger_rank_eq _ _ _

lemma foldl_rank_mono (get : Merged → String) (raw : RawRecord → Option String)
    (tb : List (String × ℕ))
    (hstep : ∀ e c, get (merge_record e c) =
      stronger (get e) (pyStrip ((raw c).getD (get e))) tb)
    (rest : List RawRecord) (e : Merged) :
    dget tb (get e) 0 ≤ dget tb (get (rest.foldl merge_record e)) 0 := by
  induction rest generalizing e with
  | nil => exact le_refl _
  | cons c rest ih =>
      rw [List.foldl_cons]
      refine le_trans ?_ (ih (merge_record e c))
      rw [merge_rank_max get raw tb hstep]
      exact le_max_left _ _

lemma foldl_rank_ge_candidate (get : Merged → String) (raw : RawRecord → Option String)
    (tb : List (String × ℕ))
    (hstep : ∀ e c, get (merge_record e c) =
      stronger (get e) (pyStrip ((raw c).getD (get e))) tb)
    (rest : List RawRecord) (e : Merged) (r : RawRecord)
    (hr : r ∈ rest) (v : String) (hv : raw r = some v) :
    dget tb (pyStrip v) 0 ≤ dget tb (get (rest.foldl merge_record e)) 0 := by
  obtain ⟨pre, post, rfl⟩ := List.append_of_mem hr
  rw [List.foldl_append, List.foldl_cons]
  refine le_trans ?_ (foldl_rank_mono get raw tb hstep post _)
  rw [merge_rank_max get raw tb hstep, hv]
  exact le_max_right _ _

lemma foldl_rank_eq_max (get : Merged → String) (raw : RawRecord → Option String)
    (tb : List (String × ℕ)) (dflt : String)
    (hstep : ∀ e c, get (merge_record e c) =
      stronger (get e) (pyStrip ((raw c).getD (get e))) tb)
    (rest : List RawRecord) (e : Merged)
    (hall : ∀ r ∈ rest, (raw r).isSome) :
    dget tb (get (rest.foldl merge_record e)) 0 =
      (rest.map (fun r => dget tb (pyStrip ((raw r).getD dflt)) 0)).foldl max
        (dget tb (get e) 0) := by
  revert hall
  induction rest generalizing e with
  | nil => intro _; rfl
  | cons c rest ih =>
      intro hall
      rw [List.foldl_cons, List.map_cons, List.foldl_cons]
      rw [ih (merge_record e c) (fun r hr => hall r (List.mem_cons_of_mem c hr))]
      congr 1
      rw [merge_rank_max get raw tb hstep]
      obtain ⟨v, hv⟩ := Option.isSome_iff_exists.mp (hall c (List.mem_cons_self c rest))
      rw [hv]
      rfl

lemma tier_step (e : Merged) (c : RawRecord) :
    Merged.tier (merge_record e c) =
      stronger (Merged.tier e) (pyStrip ((RawRecord.tier c).getD (Merged.tier e))) TIER_RANK := rfl

lemma sev_step (e : Merged) (c : RawRecord) :
    Merged.severity (merge_record e c) =
      stronger (Merged.severity e)
        (pyStrip ((RawRecord.severity c).getD (Merged.severity e))) SEVERITY_RANK := rfl

lemma conf_step (e : Merged) (c : RawRecord) :
    Merged.confidence (merge_record e c) =
      stronger (Merged.confidence e)
        (pyStrip ((RawRecord.confidence c).getD (Merged.confidence e))) CONFIDENCE_RANK := rfl

/-! ### C4 -/

/-- C4: per fold, the tier/severity/confidence ranks never weaken; over a
whole bucket (seed record plus folded candidates) the merged rank is at
least the rank of the seed's derived value and of every value a contributor
carries, and when every contributor carries all three fields the merged
rank equals the maximum over the contributors. -/
theorem C4_monotonic_strengthening :
    (∀ (e : Merged) (c : RawRecord),
      tierRankOf e.tier ≤ tierRankOf (merge_record e c).tier ∧
      sevRankOf e.severity ≤ sevRankOf (merge_record e c).severity ∧
      confRankOf e.confidence ≤ confRankOf (merge_record e c).confidence) ∧
    (∀ (r0 : RawRecord) (rest : List RawRecord),
      (tierRankOf (initial_record r0).tier ≤
          tierRankOf (rest.foldl merge_record (initial_record r0)).tier ∧
        ∀ r ∈ rest, ∀ v, r.tier = some v →
          tierRankOf (pyStrip v) ≤ tierRankOf (rest.foldl merge_record (initial_record r0)).tier) ∧
      (sevRankOf (initial_record r0).severity ≤
          sevRankOf (rest.foldl merge_record (initial_record r0)).severity ∧
        ∀ r ∈ rest, ∀ v, r.severity = some v →
          sevRankOf (pyStrip v) ≤ sevRankOf (rest.foldl merge_record (initial_record r0)).severity) ∧
      (confRankOf (initial_record r0).confidence ≤
          confRankOf (rest.foldl merge_record (initial_record r0)).confidence ∧
        ∀ r ∈ rest, ∀ v, r.confidence = some v →
          confRankOf (pyStrip v) ≤
            confRankOf (rest.foldl merge_record (initial_record r0)).confidence)) ∧
    (∀ (r0 : RawRecord) (rest : List RawRecord),
      (∀ r ∈ rest, r.tier.isSome ∧ r.severity.isSome ∧ r.confidence.isSome) →
      tierRankOf (rest.foldl merge_record (initial_record r0)).tier =
        (rest.map (fun r => tierRankOf (pyStrip (r.tier.getD "T4")))).foldl max
          (tierRankOf (initial_record r0).tier) ∧
      sevRankOf (rest.foldl merge_record (initial_record r0)).severity =
        (rest.map (fun r => sevRankOf (pyStrip (r.severity.getD "low")))).foldl max
          (sevRankOf (initial_record r0).severity) ∧
      confRankOf (rest.foldl merge_record (initial_record r0)).confidence =
        (rest.map (fun r => confRankOf (pyStrip (r.confidence.getD "low")))).foldl max
          (confRankOf (initial_record r0).confidence)) := by
  refine ⟨?_, ?_, ?_⟩
  · intro e c
    refine ⟨?_, ?_, ?_⟩
    · show dget TIER_RANK e.tier 0 ≤ dget TIER_RANK (merge_record e c).tier 0
      rw [merge_rank_max Merged.tier RawRecord.tier TIER_RANK tier_step]
      exact le_max_left _ _
    · show dget SEVERITY_RANK e.severity 0 ≤ dget SEVERITY_RANK (merge_record e c).severity 0
      rw [merge_rank_max Merged.severity RawRecord.severity SEVERITY_RANK sev_step]
      exact le_max_left _ _
    · show dget CONFIDENCE_RANK e.confidence 0 ≤
        dget CONFIDENCE_RANK (merge_record e c).confidence 0
      rw [merge_rank_max Merged.confidence RawRecord.confidence CONFIDENCE_RANK conf_step]
      exact le_max_left _ _
  · intro r0 rest
    refine ⟨⟨?_, ?_⟩, ⟨?_, ?_⟩, ⟨?_, ?_⟩⟩
    · exact foldl_rank_mono Merged.tier RawRecord.tier TIER_RANK tier_step rest _
    · intro r hr v hv
      exact foldl_rank_ge_candidate Merged.tier RawRecord.tier TIER_RANK tier_step
        rest _ r hr v hv
    · exact foldl_rank_mono Merged.severity RawRecord.severity SEVERITY_RANK sev_step rest _
    · intro r hr v hv
      exact foldl_rank_ge_candidate Merged.severity RawRecord.severity SEVERITY_RANK sev_step
        rest _ r hr v hv
    · exact foldl_rank_mono Merged.confidence RawRecord.confidence CONFIDENCE_RANK conf_step rest _
    · intro r hr v hv
      exact foldl_rank_ge_candidate Merged.confidence RawRecord.confidence CONFIDENCE_RANK
        conf_step rest _ r hr v hv
  · intro r0 rest hall
    refine ⟨?_, ?_, ?_⟩
    · exact foldl_rank_eq_max Merged.tier RawRecord.tier TIER_RANK "T4" tier_step rest _
        (fun r hr => (hall r hr).1)
    · exact foldl_rank_eq_max Merged.severity RawRecord.severity SEVERITY_RANK "low" sev_step
        rest _ (fun r hr => (hall r hr).2.1)
    · exact foldl_rank_eq_max Merged.confidence RawRecord.confidence CONFIDENCE_RANK "low"
        conf_step rest _ (fun r hr => (hall r hr).2.2)

/-- C4 witness: a concrete bucket where a T2 seed is strengthened by a T1
candidate. -/
theorem C4_monotonic_strengthening_witness :
    (({ c5open with tier := some "T1" } : RawRecord) ∈ [({ c5open with tier := some "T1" } : RawRecord)] ∧
      ({ c5open with tier := some "T1" } : RawRecord).tier = some "T1") ∧
    tierRankOf (pyStrip "T1") ≤
      tierRankOf (([({ c5open with tier := some "T1" } : RawRecord)].foldl merge_record
        (initial_record { c5fixed with tier := some "T2" })).tier) := by
  refine ⟨⟨List.mem_singleton.mpr rfl, rfl⟩, ?_⟩
  exact (C4_monotonic_strengthening.2.1 { c5fixed with tier := some "T2" }
    [{ c5open with tier := some "T1" }]).1.2 _ (List.mem_singleton.mpr rfl) "T1" rfl

/-! ### Bucket structure of the main merge loop -/

/-- The merged record a bucket holds after its contributors are folded in
program order: the first record seeds it, the rest are merged. -/
def bucketResult : List RawRecord → Option Merged
  | [] => none
  | r :: rest => some (rest.foldl merge_record (initial_record r))

lemma alookup_append_left {bs cs : List (String × Merged)} {k : String} {m : Merged}
    (h : alookup bs k = some m) : alookup (bs ++ cs) k = some m := by
  induction bs with
  | nil => cases h
  | cons b bs ih =>
      obtain ⟨k', m'⟩ := b
      rw [List.cons_append]
      by_cases hk : k' = k
      · unfold alookup at h ⊢
        rw [if_pos hk] at h
        rw [if_pos hk]
        exact h
      · unfold alookup at h ⊢
        rw [if_neg hk] at h
        rw [if_neg hk]
        exact ih h

lemma alookup_append_right {bs : List (String × Merged)} {k : String}
    (h : alookup bs k = none) (cs : List (String × Merged)) :
    alookup (bs ++ cs) k = alookup cs k := by
  induction bs with
  | nil => rfl
  | cons b bs ih =>
      obtain ⟨k', m'⟩ := b
      rw [List.cons_append]
      by_cases hk : k' = k
      · exfalso
        unfold alookup at h
        rw [if_pos hk] at h
        cases h
      · unfold alookup at h
        rw [if_neg hk] at h
        show (if k' = k then some m' else alookup (bs ++ cs) k) = alookup cs k
        rw [if_neg hk]
        exact ih h

lemma alookup_updateBucket_self (k : String) (r : RawRecord) (bs : List (String × Merged)) :
    alookup (updateBucket k r bs) k = (alookup bs k).map (fun m => merge_record m r) := by
  induction bs with
  | nil => rfl
  | cons b bs ih =>
      obtain ⟨k', m'⟩ := b
      unfold updateBucket
      by_cases hk : k' = k
      · rw [if_pos hk]
        unfold alookup
        rw [if_pos hk, if_pos hk]
        rfl
      · rw [if_neg hk]
        unfold alookup
        rw [if_neg hk, if_neg hk]
        exact ih

lemma alookup_updateBucket_other {k k' : String} (hne : k' ≠ k) (r : RawRecord)
    (bs : List (String × Merged)) :
    alookup (updateBucket k r bs) k' = alookup bs k' := by
  induction bs with
  | nil => rfl
  | cons b bs ih =>
      obtain ⟨k0, m0⟩ := b
      unfold updateBucket
      by_cases hk : k0 = k
      · rw [if_pos hk]
        unfold alookup
        have hne0 : k0 ≠ k' := fun h => hne (h.symm.trans hk)
        rw [if_neg hne0, if_neg hne0]
      · rw [if_neg hk]
        unfold alookup
        by_cases h0 : k0 = k'
        · rw [if_pos h0, if_pos h0]
        · rw [if_neg h0, if_neg h0]
          exact ih

/-- The central characterisation: after folding all records, the bucket at
key `k` holds exactly the fold of the records whose fingerprint is `k`. -/
lemma foldl_foldStep_lookup (rs : List RawRecord) (bs : List (String × Merged)) (k : String) :
    alookup (rs.foldl foldStep bs) k =
      match alookup bs k with
      | some m => some (((rs.filter (fun r => normalized_fingerprint r = k)).foldl
          merge_record m))
      | none => bucketResult (rs.filter (fun r => normalized_fingerprint r = k)) := by
  induction rs generalizing bs with
  | nil =>
      cases h : alookup bs k <;> simp [h, bucketResult]
  | cons r rs ih =>
      rw [List.foldl_cons, ih]
      by_cases hfp : normalized_fingerprint r = k
      · rw [List.filter_cons_of_pos (by simp [hfp])]
        cases h : alookup bs k with
        | some m =>
            have hstep : alookup (foldStep bs r) k = some (merge_record m r) := by
              unfold foldStep
              rw [hfp, if_pos (by rw [h]; rfl)]
              rw [alookup_updateBucket_self, h]
              rfl
            rw [hstep]
            dsimp only
            rw [List.foldl_cons]
        | none =>
            have hstep : alookup (foldStep bs r) k = some (initial_record r) := by
              unfold foldStep
              rw [hfp, if_neg (by rw [h]; simp)]
              rw [alookup_append_right h]
              unfold alookup
              rw [if_pos rfl]
            rw [hstep]
            rfl
      · rw [List.filter_cons_of_neg (by simp [hfp])]
        have hstep : alookup (foldStep bs r) k = alookup bs k := by
          unfold foldStep
          split_ifs with hs
          · exact alookup_updateBucket_other (fun h => hfp h.symm) r bs
          · cases h : alookup bs k with
            | some m => exact (alookup_append_left h)
            | none =>
                rw [alookup_append_right h]
                unfold alookup
                rw [if_neg hfp]
                rfl
        rw [hstep]

lemma mergeAll_lookup (rs : List RawRecord) (k : String) :
    alookup (mergeAll rs) k =
      bucketResult (rs.filter (fun r => normalized_fingerprint r = k)) := by
  unfold mergeAll
  rw [foldl_foldStep_lookup]
  rfl

/-! ### Keys of the accumulator: uniqueness and counting -/

lemma mem_keys_iff_isSome (bs : List (String × Merged)) (k : String) :
    k ∈ bs.map Prod.fst ↔ (alookup bs k).isSome := by
  induction bs with
  | nil => simp [alookup]
  | cons b bs ih =>
      obtain ⟨k', m⟩ := b
      by_cases hk : k' = k
      · subst hk
        simp [alookup]
      · rw [List.map_cons]
        unfold alookup
        rw [if_neg hk]
        simp only [List.mem_cons, ih]
        constructor
        · rintro (rfl | h)
          · exact absurd rfl hk
          · exact h
        · exact Or.inr

lemma keys_updateBucket (k : String) (r : RawRecord) (bs : List (String × Merged)) :
    (updateBucket k r bs).map Prod.fst = bs.map Prod.fst := by
  induction bs with
  | nil => rfl
  | cons b bs ih =>
      obtain ⟨k', m⟩ := b
      unfold updateBucket
      by_cases hk : k' = k
      · rw [if_pos hk]
        simp
      · rw [if_neg hk, List.map_cons, List.map_cons, ih]

lemma keys_foldStep_nodup (bs : List (String × Merged)) (r : RawRecord)
    (h : (bs.map Prod.fst).Nodup) : ((foldStep bs r).map Prod.fst).Nodup := by
  unfold foldStep
  split_ifs with hs
  · rw [keys_updateBucket]
    exact h
  · rw [List.map_append]
    rw [List.nodup_append]
    refine ⟨h, List.nodup_singleton _, ?_⟩
    intro a ha hb
    have hfp : a = normalized_fingerprint r := by simpa using hb
    subst hfp
    rw [mem_keys_iff_isSome] at ha
    exact hs ha

lemma mergeAll_keys_nodup (rs : List RawRecord) : ((mergeAll rs).map Prod.fst).Nodup := by
  unfold mergeAll
  suffices h : ∀ bs : List (String × Merged), (bs.map Prod.fst).Nodup →
      ((rs.foldl foldStep bs).map Prod.fst).Nodup by
    exact h [] (List.nodup_nil)
  induction rs with
  | nil => intro bs h; exact h
  | cons r rs ih =>
      intro bs h
      rw [List.foldl_cons]
      exact ih (foldStep bs r) (keys_foldStep_nodup bs r h)

lemma bucketResult_isSome_iff (l : List RawRecord) : (bucketResult l).isSome ↔ l ≠ [] := by
  cases l <;> simp [bucketResult]

lemma filter_ne_nil_iff {α : Type} (p : α → Bool) (l : List α) :
    l.filter p ≠ [] ↔ ∃ a ∈ l, p a = true := by
  induction l with
  | nil => simp
  | cons a l ih =>
      cases hp : p a with
      | true => simp [List.filter_cons, hp]
      | false =>
          simp only [List.filter_cons, hp, Bool.false_eq_true, if_false, ih, List.mem_cons]
          constructor
          · rintro ⟨x, hx, hpx⟩
            exact ⟨x, Or.inr hx, hpx⟩
          · rintro ⟨x, rfl | hx, hpx⟩
            · rw [hp] at hpx; cases hpx
            · exact ⟨x, hx, hpx⟩

lemma mergeAll_mem_keys (rs : List RawRecord) (k : String) :
    k ∈ (mergeAll rs).map Prod.fst ↔ ∃ r ∈ rs, normalized_fingerprint r = k := by
  rw [mem_keys_iff_isSome, mergeAll_lookup, bucketResult_isSome_iff, filter_ne_nil_iff]
  simp only [decide_eq_true_eq]

lemma mergeAll_length_eq_dedup (rs : List RawRecord) :
    (mergeAll rs).length = (rs.map normalized_fingerprint).dedup.length := by
  have hlen : (mergeAll rs).length = ((mergeAll rs).map Prod.fst).length :=
    (List.length_map _ _).symm
  have hnd := mergeAll_keys_nodup rs
  have hts : ((mergeAll rs).map Prod.fst).toFinset = (rs.map normalized_fingerprint).toFinset := by
    ext k
    rw [List.mem_toFinset, List.mem_toFinset, mergeAll_mem_keys]
    simp [List.mem_map]
  calc (mergeAll rs).length
      = ((mergeAll rs).map Prod.fst).length := hlen
    _ = ((mergeAll rs).map Prod.fst).toFinset.card := (List.toFinset_card_of_nodup hnd).symm
    _ = (rs.map normalized_fingerprint).toFinset.card := by rw [hts]
    _ = (rs.map normalized_fingerprint).dedup.length := List.card_toFinset _

lemma dedup_length_eq_iff {α : Type} [DecidableEq α] (l : List α) :
    l.dedup.length = l.length ↔ l.Nodup := by
  constructor
  · intro h
    have heq : l.dedup = l := (List.dedup_sublist l).eq_of_length h
    rw [← heq]
    exact List.nodup_dedup l
  · intro h
    rw [h.dedup]

/-! ### Fingerprint decomposition -/

/-- The three derived dedup fields of a record, exactly as
`normalized_fingerprint` computes them. -/
def derivedDetector (r : RawRecord) : String := pyStrip (r.detector.getD "")

def derivedFile (r : RawRecord) : String := pyStrip (r.file.getD "")

def derivedSummary (r : RawRecord) : String := normalize_text (r.summary.getD "")

lemma sub_runs_mem (p : Char → Bool) :
    ∀ (l : List Char) (b : Bool) (c : Char), c ∈ sub_runs p b l →
      c = ' ' ∨ (c ∈ l ∧ p c = false) := by
  intro l
  induction l with
  | nil => intro b c h; cases h
  | cons d l ih =>
      intro b c h
      unfold sub_runs at h
      cases hp : p d with
      | true =>
          rw [hp] at h
          simp only [if_true] at h
          cases b with
          | true =>
              rcases ih true c h with h1 | ⟨h2, h3⟩
              · exact Or.inl h1
              · exact Or.inr ⟨List.mem_cons_of_mem d h2, h3⟩
          | false =>
              rcases List.mem_cons.mp h with rfl | hmem
              · exact Or.inl rfl
              · rcases ih true c hmem with h1 | ⟨h2, h3⟩
                · exact Or.inl h1
                · exact Or.inr ⟨List.mem_cons_of_mem d h2, h3⟩
      | false =>
          rw [hp] at h
          simp only [Bool.false_eq_true, if_false] at h
          rcases List.mem_cons.mp h with rfl | hmem
          · exact Or.inr ⟨List.mem_cons_self c l, hp⟩
          · rcases ih false c hmem with h1 | ⟨h2, h3⟩
            · exact Or.inl h1
            · exact Or.inr ⟨List.mem_cons_of_mem d h2, h3⟩

lemma trimWsL_subset {l : List Char} {c : Char} (h : c ∈ trimWsL l) : c ∈ l := by
  unfold trimWsL at h
  rw [List.mem_reverse] at h
  have h2 := (List.dropWhile_sublist _).subset h
  rw [List.mem_reverse] at h2
  exact (List.dropWhile_sublist _).subset h2

lemma normalize_text_no_bar (s : String) : '|' ∉ (normalize_text s).data := by
  unfold normalize_text
  intro h
  have h1 : '|' ∈ sub_runs Char.isWhitespace false
      (sub_runs (fun c => !(charLowAlnum c)) false (s.data.map Char.toLower)) :=
    trimWsL_subset h
  rcases sub_runs_mem _ _ _ _ h1 with hsp | ⟨h2, _⟩
  · cases hsp
  · rcases sub_runs_mem _ _ _ _ h2 with hsp | ⟨_, hal⟩
    · cases hsp
    · have : charLowAlnum '|' = true := by
        revert hal
        cases charLowAlnum '|' <;> simp
      cases this

lemma bar_split_left :
    ∀ {a1 : List Char} {a2 b1 b2 : List Char}, '|' ∉ a1 → '|' ∉ a2 →
      a1 ++ '|' :: b1 = a2 ++ '|' :: b2 → a1 = a2 ∧ b1 = b2 := by
  intro a1
  induction a1 with
  | nil =>
      intro a2 b1 b2 _ h2 he
      cases a2 with
      | nil => simpa using he
      | cons d a2 =>
          exfalso
          injection he with hd _
          exact h2 (hd ▸ List.mem_cons_self d a2)
  | cons c a1 ih =>
      intro a2 b1 b2 h1 h2 he
      cases a2 with
      | nil =>
          exfalso
          injection he with hd _
          exact h1 (hd ▸ List.mem_cons_self c a1)
      | cons d a2 =>
          injection he with hd ht
          obtain ⟨ha, hb⟩ := ih (fun hm => h1 (List.mem_cons_of_mem c hm))
            (fun hm => h2 (List.mem_cons_of_mem d hm)) ht
          exact ⟨by rw [hd, ha], hb⟩

lemma bar_split_right {f1 f2 s1 s2 : List Char} (h1 : '|' ∉ s1) (h2 : '|' ∉ s2)
    (he : f1 ++ '|' :: s1 = f2 ++ '|' :: s2) : f1 = f2 ∧ s1 = s2 := by
  have hrev : s1.reverse ++ '|' :: f1.reverse = s2.reverse ++ '|' :: f2.reverse := by
    have h := congrArg List.reverse he
    rw [List.reverse_append, List.reverse_append, List.reverse_cons, List.reverse_cons] at h
    rw [List.append_assoc, List.append_assoc] at h
    simpa using h
  obtain ⟨hs, hf⟩ := bar_split_left (fun hm => h1 (List.mem_reverse.mp hm))
    (fun hm => h2 (List.mem_reverse.mp hm)) hrev
  exact ⟨List.reverse_injective hf, List.reverse_injective hs⟩

lemma fp_data (r : RawRecord) :
    (normalized_fingerprint r).data =
      (derivedDetector r).data ++ '|' ::
        ((derivedFile r).data ++ '|' :: (derivedSummary r).data) := by
  unfold normalized_fingerprint derivedDetector derivedFile derivedSummary
  simp [String.data_append]

lemma fp_eq_components {r1 r2 : RawRecord}
    (hd1 : '|' ∉ (derivedDetector r1).data) (hd2 : '|' ∉ (derivedDetector r2).data)
    (he : normalized_fingerprint r1 = normalized_fingerprint r2) :
    derivedDetector r1 = derivedDetector r2 ∧ derivedFile r1 = derivedFile r2 ∧
      derivedSummary r1 = derivedSummary r2 := by
  have hdata := congrArg String.data he
  rw [fp_data, fp_data] at hdata
  obtain ⟨hdet, hrest⟩ := bar_split_left hd1 hd2 hdata
  obtain ⟨hfile, hsum⟩ := bar_split_right (normalize_text_no_bar _) (normalize_text_no_bar _) hrest
  exact ⟨String.ext hdet, String.ext hfile, String.ext hsum⟩

/-! ### C3 -/

/-- C3 counterexample input: a detector containing the fingerprint
separator collides with a different detector/file pair. -/
def c3a : RawRecord := { detector := some "a|b", file := some "c", summary := some "", source := "x" }

def c3b : RawRecord := { detector := some "a", file := some "b|c", summary := some "", source := "y" }

/-- C3 counterexample: these two records differ in both derived detector and
derived file, yet share one fingerprint and merge into a single record —
so records differing in a derived field do not always remain separate. -/
theorem C3_counterexample :
    derivedDetector c3a ≠ derivedDetector c3b ∧ derivedFile c3a ≠ derivedFile c3b ∧
    normalized_fingerprint c3a = normalized_fingerprint c3b ∧
    (mergeAll [c3a, c3b]).length = 1 := by decide

/-- C3 (amended): records with equal fingerprints merge into one bucket and
records with distinct fingerprints stay separate; differing derived fields
force distinct fingerprints provided the derived detectors do not contain
the separator bar (true of every recognized detector name); fingerprints
are unique within the merged set; the merged-set size is at most the input
count and equals it exactly when all fingerprints are distinct. -/
theorem C3_fingerprint_dedup :
    (∀ r1 r2 : RawRecord, normalized_fingerprint r1 = normalized_fingerprint r2 →
      (mergeAll [r1, r2]).length = 1) ∧
    (∀ r1 r2 : RawRecord, normalized_fingerprint r1 ≠ normalized_fingerprint r2 →
      (mergeAll [r1, r2]).length = 2) ∧
    (∀ r1 r2 : RawRecord, '|' ∉ (derivedDetector r1).data → '|' ∉ (derivedDetector r2).data →
      (derivedDetector r1 ≠ derivedDetector r2 ∨ derivedFile r1 ≠ derivedFile r2 ∨
        derivedSummary r1 ≠ derivedSummary r2) →
      normalized_fingerprint r1 ≠ normalized_fingerprint r2) ∧
    (∀ rs : List RawRecord, ((mergeAll rs).map Prod.fst).Nodup) ∧
    (∀ rs : List RawRecord, (mergeAll rs).length ≤ rs.length) ∧
    (∀ rs : List RawRecord,
      (mergeAll rs).length = rs.length ↔ (rs.map normalized_fingerprint).Nodup) := by
  refine ⟨?_, ?_, ?_, mergeAll_keys_nodup, ?_, ?_⟩
  · intro r1 r2 h
    show (foldStep (foldStep [] r1) r2).length = 1
    have h1 : foldStep [] r1 = [(normalized_fingerprint r1, initial_record r1)] := rfl
    rw [h1]
    unfold foldStep
    rw [if_pos (by unfold alookup; rw [if_pos h]; rfl)]
    unfold updateBucket
    rw [if_pos h]
    rfl
  · intro r1 r2 h
    show (foldStep (foldStep [] r1) r2).length = 2
    have h1 : foldStep [] r1 = [(normalized_fingerprint r1, initial_record r1)] := rfl
    rw [h1]
    unfold foldStep
    rw [if_neg (by unfold alookup; rw [if_neg h]; simp [alookup])]
    rfl
  · intro r1 r2 hb1 hb2 hd he
    rcases hd with h | h | h
    · exact h (fp_eq_components hb1 hb2 he).1
    · exact h (fp_eq_components hb1 hb2 he).2.1
    · exact h (fp_eq_components hb1 hb2 he).2.2
  · intro rs
    rw [mergeAll_length_eq_dedup]
    calc (rs.map normalized_fingerprint).dedup.length
        ≤ (rs.map normalized_fingerprint).length :=
          (List.dedup_sublist _).length_le
      _ = rs.length := List.length_map _ _
  · intro rs
    rw [mergeAll_length_eq_dedup]
    rw [show rs.length = (rs.map normalized_fingerprint).length from (List.length_map _ _).symm]
    exact dedup_length_eq_iff _

/-- C3 witness: the same-fingerprint pair merges to one bucket; a record
differing only in file keeps a distinct fingerprint and a separate
bucket. -/
theorem C3_fingerprint_dedup_witness :
    normalized_fingerprint c5fixed = normalized_fingerprint c5open ∧
    (mergeAll [c5fixed, c5open]).length = 1 ∧
    (mergeAll [c5fixed, { c5fixed with file := some "g" }]).length = 2 := by
  have h1 : normalized_fingerprint c5fixed = normalized_fingerprint c5open := by decide
  have h3 : normalized_fingerprint c5fixed ≠
      normalized_fingerprint { c5fixed with file := some "g" } :=
    C3_fingerprint_dedup.2.2.1 _ _ (by decide) (by decide) (Or.inr (Or.inl (by decide)))
  exact ⟨h1, C3_fingerprint_dedup.1 _ _ h1, C3_fingerprint_dedup.2.1 _ _ h3⟩

/-! ### C2 -/

lemma bucketResult_eq_none_iff (l : List RawRecord) : bucketResult l = none ↔ l = [] := by
  cases l <;> simp [bucketResult]

/-- The rank of a strongest-wins field over a whole bucket, when every
contributor carries the field: the maximum over all contributors. -/
lemma bucketResult_rank_gen (get : Merged → String) (raw : RawRecord → Option String)
    (tb : List (String × ℕ)) (dflt : String)
    (hstep : ∀ e c, get (merge_record e c) =
      stronger (get e) (pyStrip ((raw c).getD (get e))) tb)
    (hinit : ∀ r : RawRecord, get (initial_record r) = pyStrip ((raw r).getD dflt))
    (l : List RawRecord) (hl : l ≠ []) (hall : ∀ r ∈ l, (raw r).isSome) :
    (bucketResult l).map (fun m => dget tb (get m) 0) =
      some ((l.map (fun r => dget tb (pyStrip ((raw r).getD dflt)) 0)).foldl max 0) := by
  obtain ⟨r0, rest, rfl⟩ := List.exists_cons_of_ne_nil hl
  show some (dget tb (get (rest.foldl merge_record (initial_record r0))) 0) = _
  rw [foldl_rank_eq_max get raw tb dflt hstep rest _
    (fun r hr => hall r (List.mem_cons_of_mem r0 hr))]
  rw [hinit r0, List.map_cons, List.foldl_cons, Nat.zero_max]

/-- C2 counterexample input: same fingerprint, statuses `fixed` and
`wontfix`. -/
def c2a : RawRecord :=
  { tier := some "T1", detector := some "d", severity := some "high",
    file := some "f", summary := some "s", confidence := some "high",
    status := some "fixed", source := "s1" }

def c2b : RawRecord :=
  { tier := some "T1", detector := some "d", severity := some "high",
    file := some "f", summary := some "s", confidence := some "high",
    status := some "wontfix", source := "s2" }

def c2Merged1 : Merged :=
  { id := "pending", tier := "T1", detector := "d", severity := "high",
    file := "f", line := none, summary := "s", evidence := "",
    recommended_fix := "", confidence := "high", status := "fixed",
    conflict_note := "status: fixed vs wontfix", needs_validation := true,
    sources := ["s1", "s2"] }

def c2Merged2 : Merged :=
  { id := "pending", tier := "T1", detector := "d", severity := "high",
    file := "f", line := none, summary := "s", evidence := "",
    recommended_fix := "", confidence := "high", status := "wontfix",
    conflict_note := "status: wontfix vs fixed", needs_validation := true,
    sources := ["s2", "s1"] }

/-- C2 counterexample: folding the same two records in the two orders gives
merged sets with different contents (status "fixed" vs "wontfix") and
different overall scores (100 vs 90), refuting order-independence of the
merged contents and scores. -/
theorem C2_counterexample :
    [c2a, c2b].Perm [c2b, c2a] ∧
    mergedList [c2a, c2b] = [c2Merged1] ∧
    mergedList [c2b, c2a] = [c2Merged2] ∧
    (score (mergedList [c2a, c2b])).overall_score = 100 ∧
    (score (mergedList [c2b, c2a])).overall_score = 90 := by
  have hm1 : mergedList [c2a, c2b] = [c2Merged1] := by decide
  have hm2 : mergedList [c2b, c2a] = [c2Merged2] := by decide
  refine ⟨List.Perm.swap c2b c2a [], hm1, hm2, ?_, ?_⟩
  · rw [hm1]
    have hfo : List.filter (fun r => r.status = "open") [c2Merged1] = ([] : List Merged) := by
      decide
    have hfw : List.filter (fun r => r.status = "wontfix") [c2Merged1] = ([] : List Merged) := by
      decide
    have hs : score [c2Merged1] =
        { overall_score := ((100 : ℤ) : ℚ), strict_score := ((80 : ℤ) : ℚ) } := by
      refine score_eq _ 100 80 ?_ ?_
      · rw [hfo, hfw]
        norm_num [max_def, min_def]
      · norm_num [penalty, dget, alookup, c2Merged1, max_def, min_def]
    rw [hs]
    norm_num
  · rw [hm2]
    have hfo : List.filter (fun r => r.status = "open") [c2Merged2] = ([] : List Merged) := by
      decide
    have hfw : List.filter (fun r => r.status = "wontfix") [c2Merged2] = [c2Merged2] := by
      decide
    have hs : score [c2Merged2] =
        { overall_score := ((90 : ℤ) : ℚ), strict_score := ((80 : ℤ) : ℚ) } := by
      refine score_eq _ 90 80 ?_ ?_
      · rw [hfo, hfw]
        norm_num [penalty, dget, alookup, c2Merged2, max_def, min_def]
      · norm_num [penalty, dget, alookup, c2Merged2, max_def, min_def]
    rw [hs]
    norm_num

/-- C2 (amended): for inputs whose records all carry tier, severity and
confidence values, any two fold orders produce the same buckets (per
fingerprint) with the same tier/severity/confidence ranks; the remaining
contents — such as status, and with it the scores — can depend on fold
order, as the counterexample shows. -/
theorem C2_rank_order_independence (rs rs' : List RawRecord) (hp : rs.Perm rs')
    (hall : ∀ r ∈ rs, r.tier.isSome ∧ r.severity.isSome ∧ r.confidence.isSome) (k : String) :
    (alookup (mergeAll rs) k = none ↔ alookup (mergeAll rs') k = none) ∧
    (alookup (mergeAll rs) k).map (fun m => tierRankOf m.tier) =
      (alookup (mergeAll rs') k).map (fun m => tierRankOf m.tier) ∧
    (alookup (mergeAll rs) k).map (fun m => sevRankOf m.severity) =
      (alookup (mergeAll rs') k).map (fun m => sevRankOf m.severity) ∧
    (alookup (mergeAll rs) k).map (fun m => confRankOf m.confidence) =
      (alookup (mergeAll rs') k).map (fun m => confRankOf m.confidence) := by
  rw [mergeAll_lookup, mergeAll_lookup]
  have hfp : (rs.filter (fun r => normalized_fingerprint r = k)).Perm
      (rs'.filter (fun r => normalized_fingerprint r = k)) := hp.filter _
  by_cases hnil : rs.filter (fun r => normalized_fingerprint r = k) = []
  · have hnil' : rs'.filter (fun r => normalized_fingerprint r = k) = [] :=
      List.Perm.eq_nil (hnil ▸ hfp).symm
    rw [hnil, hnil']
    exact ⟨Iff.rfl, rfl, rfl, rfl⟩
  · have hne' : rs'.filter (fun r => normalized_fingerprint r = k) ≠ [] :=
      fun hh => hnil (List.Perm.eq_nil (hh ▸ hfp))
    have hall1t : ∀ r ∈ rs.filter (fun r => normalized_fingerprint r = k),
        (RawRecord.tier r).isSome :=
      fun r hr => (hall r (List.mem_of_mem_filter hr)).1
    have hall1s : ∀ r ∈ rs.filter (fun r => normalized_fingerprint r = k),
        (RawRecord.severity r).isSome :=
      fun r hr => (hall r (List.mem_of_mem_filter hr)).2.1
    have hall1c : ∀ r ∈ rs.filter (fun r => normalized_fingerprint r = k),
        (RawRecord.confidence r).isSome :=
      fun r hr => (hall r (List.mem_of_mem_filter hr)).2.2
    have hall' : ∀ r ∈ rs', r.tier.isSome ∧ r.severity.isSome ∧ r.confidence.isSome :=
      fun r hr => hall r (hp.mem_iff.mpr hr)
    have hall2t : ∀ r ∈ rs'.filter (fun r => normalized_fingerprint r = k),
        (RawRecord.tier r).isSome :=
      fun r hr => (hall' r (List.mem_of_mem_filter hr)).1
    have hall2s : ∀ r ∈ rs'.filter (fun r => normalized_fingerprint r = k),
        (RawRecord.severity r).isSome :=
      fun r hr => (hall' r (List.mem_of_mem_filter hr)).2.1
    have hall2c : ∀ r ∈ rs'.filter (fun r => normalized_fingerprint r = k),
        (RawRecord.confidence r).isSome :=
      fun r hr => (hall' r (List.mem_of_mem_filter hr)).2.2
    refine ⟨?_, ?_, ?_, ?_⟩
    · rw [bucketResult_eq_none_iff, bucketResult_eq_none_iff]
      exact iff_of_false hnil hne'
    · show (bucketResult _).map (fun m => dget TIER_RANK (Merged.tier m) 0) =
        (bucketResult _).map (fun m => dget TIER_RANK (Merged.tier m) 0)
      rw [bucketResult_rank_gen Merged.tier RawRecord.tier TIER_RANK "T4" tier_step
        (fun r => rfl) _ hnil hall1t]
      rw [bucketResult_rank_gen Merged.tier RawRecord.tier TIER_RANK "T4" tier_step
        (fun r => rfl) _ hne' hall2t]
      exact congrArg some ((hfp.map _).foldl_eq' (fun x _ y _ z => by omega) 0)
    · show (bucketResult _).map (fun m => dget SEVERITY_RANK (Merged.severity m) 0) =
        (bucketResult _).map (fun m => dget SEVERITY_RANK (Merged.severity m) 0)
      rw [bucketResult_rank_gen Merged.severity RawRecord.severity SEVERITY_RANK "low" sev_step
        (fun r => rfl) _ hnil hall1s]
      rw [bucketResult_rank_gen Merged.severity RawRecord.severity SEVERITY_RANK "low" sev_step
        (fun r => rfl) _ hne' hall2s]
      exact congrArg some ((hfp.map _).foldl_eq' (fun x _ y _ z => by omega) 0)
    · show (bucketResult _).map (fun m => dget CONFIDENCE_RANK (Merged.confidence m) 0) =
        (bucketResult _).map (fun m => dget CONFIDENCE_RANK (Merged.confidence m) 0)
      rw [bucketResult_rank_gen Merged.confidence RawRecord.confidence CONFIDENCE_RANK "low"
        conf_step (fun r => rfl) _ hnil hall1c]
      rw [bucketResult_rank_gen Merged.confidence RawRecord.confidence CONFIDENCE_RANK "low"
        conf_step (fun r => rfl) _ hne' hall2c]
      exact congrArg some ((hfp.map _).foldl_eq' (fun x _ y _ z => by omega) 0)

/-- C2 witness: the amended theorem applied to the two fold orders of the
counterexample pair at their common fingerprint. -/
theorem C2_rank_order_independence_witness :
    [c2a, c2b].Perm [c2b, c2a] ∧
    (∀ r ∈ [c2a, c2b], r.tier.isSome ∧ r.severity.isSome ∧ r.confidence.isSome) ∧
    (alookup (mergeAll [c2a, c2b]) "d|f|s").map (fun m => tierRankOf m.tier) =
      (alookup (mergeAll [c2b, c2a]) "d|f|s").map (fun m => tierRankOf m.tier) := by
  refine ⟨List.Perm.swap c2b c2a [], by decide, ?_⟩
  exact (C2_rank_order_independence [c2a, c2b] [c2b, c2a]
    (List.Perm.swap c2b c2a []) (by decide) "d|f|s").2.1

/-! ### C7 -/

/-- One step of the line-number reconciliation, as `merge_record` performs
it: a positive incoming line replaces an absent line or a larger current
line. -/
def minPosStep (acc : Option Int) (l : Option Int) : Option Int :=
  match l with
  | some n =>
      if 0 < n then
        (match acc with
         | none => some n
         | some m => if n < m then some n else some m)
      else acc
  | none => acc

/-- The claim's description of the merged line: the smallest positive
integer among the values, absent and non-positive values ignored, absent
when no positive value exists. -/
def specSmallestPos (ls : List (Option Int)) : Option Int :=
  match (ls.filterMap id).filter (fun n => 0 < n) with
  | [] => none
  | x :: xs => some (xs.foldl min x)

lemma merge_line_eq (e : Merged) (c : RawRecord) :
    (merge_record e c).line = minPosStep e.line c.line := by
  rw [merge_line_def]
  cases hc : c.line with
  | none => cases e.line <;> rfl
  | some n =>
      cases he : e.line with
      | none => rfl
      | some m =>
          show (if 0 < n ∧ n < m then some n else some m) =
            if 0 < n then (if n < m then some n else some m) else some m
          by_cases h1 : 0 < n
          · by_cases h2 : n < m
            · rw [if_pos ⟨h1, h2⟩, if_pos h1, if_pos h2]
            · rw [if_neg (fun hh => h2 hh.2), if_pos h1, if_neg h2]
          · rw [if_neg (fun hh => h1 hh.1), if_neg h1]

lemma foldl_line (rest : List RawRecord) (e : Merged) :
    (rest.foldl merge_record e).line =
      (rest.map RawRecord.line).foldl minPosStep e.line := by
  induction rest generalizing e with
  | nil => rfl
  | cons c rest ih =>
      rw [List.foldl_cons, List.map_cons, List.foldl_cons, ih, merge_line_eq]

lemma foldl_minPos_bad (ls : List (Option Int)) (m : Int) (hm : m ≤ 0) :
    ls.foldl minPosStep (some m) = some m := by
  induction ls with
  | nil => rfl
  | cons l ls ih =>
      rw [List.foldl_cons]
      have hstep : minPosStep (some m) l = some m := by
        cases l with
        | none => rfl
        | some n =>
            show (if 0 < n then (if n < m then some n else some m) else some m) = some m
            by_cases h1 : 0 < n
            · rw [if_pos h1, if_neg (by omega)]
            · rw [if_neg h1]
      rw [hstep, ih]

lemma positives_cons_pos (n : Int) (hn : 0 < n) (ls : List (Option Int)) :
    ((some n :: ls).filterMap id).filter (fun j => 0 < j) =
      n :: (ls.filterMap id).filter (fun j => 0 < j) := by
  rw [List.filterMap_cons]
  simp [List.filter_cons, hn]

lemma positives_cons_skip (l : Option Int) (hl : ∀ n : Int, l = some n → ¬0 < n)
    (ls : List (Option Int)) :
    ((l :: ls).filterMap id).filter (fun j => 0 < j) =
      (ls.filterMap id).filter (fun j => 0 < j) := by
  cases l with
  | none =>
      rw [List.filterMap_cons]
      rfl
  | some n =>
      rw [List.filterMap_cons]
      simp [List.filter_cons, hl n rfl]

lemma foldl_minPos_pos (ls : List (Option Int)) :
    ∀ m : Int, 0 < m →
      ls.foldl minPosStep (some m) =
        some (((ls.filterMap id).filter (fun j => 0 < j)).foldl min m) := by
  induction ls with
  | nil => intro m _; rfl
  | cons l ls ih =>
      intro m hm
      rw [List.foldl_cons]
      cases l with
      | none =>
          rw [show minPosStep (some m) none = some m from rfl]
          rw [ih m hm, positives_cons_skip none (by intro n h; cases h) ls]
      | some n =>
          by_cases hn : 0 < n
          · have hstep : minPosStep (some m) (some n) = some (min m n) := by
              show (if 0 < n then (if n < m then some n else some m) else some m) = some (min m n)
              rw [if_pos hn]
              by_cases h2 : n < m
              · rw [if_pos h2]
                congr 1
                omega
              · rw [if_neg h2]
                congr 1
                omega
            rw [hstep, ih (min m n) (by omega), positives_cons_pos n hn ls]
            rw [List.foldl_cons]
          · have hstep : minPosStep (some m) (some n) = some m := by
              show (if 0 < n then (if n < m then some n else some m) else some m) = some m
              rw [if_neg hn]
            rw [hstep, ih m hm,
              positives_cons_skip (some n) (by intro j hj; cases hj; exact hn) ls]

lemma foldl_minPos_none (ls : List (Option Int)) :
    ls.foldl minPosStep none = specSmallestPos ls := by
  induction ls with
  | nil => rfl
  | cons l ls ih =>
      rw [List.foldl_cons]
      cases l with
      | none =>
          rw [show minPosStep none none = none from rfl, ih]
          unfold specSmallestPos
          rw [positives_cons_skip none (by intro n h; cases h) ls]
      | some n =>
          by_cases hn : 0 < n
          · have hstep : minPosStep none (some n) = some n := by
              show (if 0 < n then some n else none) = some n
              rw [if_pos hn]
            rw [hstep, foldl_minPos_pos ls n hn]
            unfold specSmallestPos
            rw [positives_cons_pos n hn ls]
          · have hstep : minPosStep none (some n) = none := by
              show (if 0 < n then some n else none) = none
              rw [if_neg hn]
            rw [hstep, ih]
            unfold specSmallestPos
            rw [positives_cons_skip (some n) (by intro j hj; cases hj; exact hn) ls]

/-- C7 counterexample input: the seed record carries the non-positive line
0, a later same-fingerprint record carries line 3. -/
def c7a : RawRecord :=
  { detector := some "d", file := some "f", summary := some "s",
    line := some 0, source := "x" }

def c7b : RawRecord :=
  { detector := some "d", file := some "f", summary := some "s",
    line := some 3, source := "y" }

/-- C7 counterexample: the merged record keeps line 0 — not the smallest
positive line 3 — because the seed's non-positive line is stored verbatim
and is never displaced. -/
theorem C7_counterexample :
    (mergedList [c7a, c7b]).map (fun m => m.line) = [some 0] ∧
    specSmallestPos [c7a.line, c7b.line] = some 3 := by
  constructor
  · decide
  · show specSmallestPos [some 0, some 3] = some 3
    rfl

/-- C7 (amended): one fold updates the line exactly by the
positive-minimum step; when the seed record's line is absent or positive,
the bucket's merged line is the smallest positive line among all
contributors (absent and non-positive values ignored, absent if none); but
a non-positive seed line is stored as-is and never replaced. -/
theorem C7_smallest_positive_line :
    (∀ (e : Merged) (c : RawRecord), (merge_record e c).line = minPosStep e.line c.line) ∧
    (∀ (r0 : RawRecord) (rest : List RawRecord),
      (r0.line = none ∨ ∃ n, r0.line = some n ∧ 0 < n) →
      (rest.foldl merge_record (initial_record r0)).line =
        specSmallestPos (r0.line :: rest.map RawRecord.line)) ∧
    (∀ (r0 : RawRecord) (rest : List RawRecord) (n : Int), r0.line = some n → n ≤ 0 →
      (rest.foldl merge_record (initial_record r0)).line = some n) := by
  refine ⟨merge_line_eq, ?_, ?_⟩
  · intro r0 rest hok
    rw [foldl_line]
    have hinit : (initial_record r0).line = r0.line := rfl
    rw [hinit]
    rcases hok with hnone | ⟨n, hsome, hn⟩
    · rw [hnone]
      rw [foldl_minPos_none]
      unfold specSmallestPos
      rw [positives_cons_skip none (by intro j hj; cases hj) _]
    · rw [hsome]
      rw [foldl_minPos_pos _ n hn]
      unfold specSmallestPos
      rw [positives_cons_pos n hn _]
  · intro r0 rest n hsome hn
    rw [foldl_line]
    have hinit : (initial_record r0).line = r0.line := rfl
    rw [hinit, hsome]
    exact foldl_minPos_bad _ n hn

/-- C7 witness: a bucket whose seed has no line and whose candidate has
line 5 merges to line 5, the smallest positive line seen. -/
theorem C7_smallest_positive_line_witness :
    (c5fixed.line = none ∨ ∃ n, c5fixed.line = some n ∧ 0 < n) ∧
    ([({ c5open with line := some 5 } : RawRecord)].foldl merge_record
      (initial_record c5fixed)).line =
      specSmallestPos (c5fixed.line ::
        [({ c5open with line := some 5 } : RawRecord)].map RawRecord.line) :=
  ⟨Or.inl rfl, C7_smallest_positive_line.2.1 c5fixed [{ c5open with line := some 5 }]
    (Or.inl rfl)⟩

/-! ### C8 -/

/-- C8: a source whose top-level JSON value is neither a sequence nor a
record with a `findings` sequence contributes zero records and leaves the
rest of the run untouched; in particular a record without a `findings`
field is such a source. -/
theorem C8_bad_shape_skipped :
    (∀ (pre post : List (String × Json)) (path : String) (payload : Json),
      recordsOf payload = none →
      load_findings (pre ++ (path, payload) :: post) =
        load_findings pre ++ load_findings post) ∧
    (∀ fields : List (String × Json), jlookup fields "findings" = none →
      recordsOf (Json.obj fields) = none) := by
  constructor
  · intro pre post path payload hnone
    induction pre with
    | nil =>
        show (match recordsOf payload with
          | some records => (records.filter isObjJ).map (fun r => (r, path))
          | none => []) ++ load_findings post = load_findings post
        rw [hnone]
        rfl
    | cons s pre ih =>
        obtain ⟨p0, j0⟩ := s
        show (match recordsOf j0 with
          | some records => (records.filter isObjJ).map (fun r => (r, p0))
          | none => []) ++ load_findings (pre ++ (path, payload) :: post) =
          ((match recordsOf j0 with
          | some records => (records.filter isObjJ).map (fun r => (r, p0))
          | none => []) ++ load_findings pre) ++ load_findings post
        rw [ih, List.append_assoc]
  · intro fields hnone
    show (match jlookup fields "findings" with
      | some (Json.arr xs) => some xs
      | _ => none) = (none : Option (List Json))
    rw [hnone]

/-- C8 witness: a findings-free record between two well-shaped sources
contributes nothing, and the other sources still load. -/
theorem C8_bad_shape_skipped_witness :
    recordsOf (Json.obj [("other", Json.num 1)]) = none ∧
    load_findings [("a", Json.arr [Json.obj [("x", Json.num 1)]]),
        ("b", Json.obj [("other", Json.num 1)]),
        ("c", Json.arr [Json.obj [("y", Json.num 2)]])] =
      load_findings [("a", Json.arr [Json.obj [("x", Json.num 1)]])] ++
        load_findings [("c", Json.arr [Json.obj [("y", Json.num 2)]])] :=
  ⟨rfl, C8_bad_shape_skipped.1 [("a", Json.arr [Json.obj [("x", Json.num 1)]])]
    [("c", Json.arr [Json.obj [("y", Json.num 2)]])] "b" (Json.obj [("other", Json.num 1)]) rfl⟩

/-! ### C9 -/

lemma remediation_plan_eq (l : List Merged) :
    remediation_plan l =
      { quick_wins := (l.filter isQuickWin).map planItem,
        refactors := (l.filter (fun m => !(isQuickWin m))).map planItem } := by
  induction l with
  | nil => rfl
  | cons m l ih =>
      unfold remediation_plan
      rw [ih]
      cases hq : isQuickWin m with
      | true => simp [List.filter_cons, hq]
      | false => simp [List.filter_cons, hq]

/-- C9 counterexample input: a single record with status `fixed`. -/
def c9a : RawRecord :=
  { detector := some "d", file := some "f", summary := some "s",
    status := some "fixed", source := "x" }

/-- C9 counterexample: the merged set has one record, but the report's plan
is computed from the top open records only, so this record appears in
neither quick_wins nor refactors. -/
theorem C9_counterexample :
    (rankedFindings [c9a]).length = 1 ∧
    (rankedFindings [c9a]).map (fun m => m.status) = ["fixed"] ∧
    (reportPlan [c9a]).quick_wins = [] ∧
    (reportPlan [c9a]).refactors = [] := by decide

/-- C9 (amended): the report's remediation grouping covers exactly the top
(up to ten) highest-priority open-status records, not the whole merged set;
each such record lands in exactly one list — in quick_wins when its tier is
T3 or T4 or its detector is a cosmetic category (naming_consistency,
debug_logging_leftovers), otherwise in refactors — rendered as an
"id: summary" string. -/
theorem C9_remediation_partition :
    (∀ rs : List RawRecord,
      reportPlan rs =
        { quick_wins := ((topOpen (rankedFindings rs)).filter isQuickWin).map planItem,
          refactors :=
            ((topOpen (rankedFindings rs)).filter (fun m => !(isQuickWin m))).map planItem }) ∧
    (∀ rs : List RawRecord, ∀ m ∈ topOpen (rankedFindings rs),
      (isQuickWin m = true → planItem m ∈ (reportPlan rs).quick_wins) ∧
      (isQuickWin m = false → planItem m ∈ (reportPlan rs).refactors)) ∧
    (∀ m : Merged, isQuickWin m = true ↔
      (m.tier = "T3" ∨ m.tier = "T4" ∨ m.detector = "naming_consistency" ∨
        m.detector = "debug_logging_leftovers")) := by
  refine ⟨?_, ?_, ?_⟩
  · intro rs
    exact remediation_plan_eq _
  · intro rs m hm
    constructor
    · intro hq
      show planItem m ∈ (remediation_plan (topOpen (rankedFindings rs))).quick_wins
      rw [remediation_plan_eq]
      exact List.mem_map_of_mem planItem (List.mem_filter.mpr ⟨hm, hq⟩)
    · intro hq
      show planItem m ∈ (remediation_plan (topOpen (rankedFindings rs))).refactors
      rw [remediation_plan_eq]
      exact List.mem_map_of_mem planItem (List.mem_filter.mpr ⟨hm, by rw [hq]; rfl⟩)
  · intro m
    unfold isQuickWin
    exact decide_eq_true_iff

/-- C9 witness: a single open T1 record is a refactor, not a quick win. -/
theorem C9_remediation_partition_witness :
    scenarioAMerged ∈ topOpen (rankedFindings [scenarioA]) ∧
    isQuickWin scenarioAMerged = false ∧
    planItem scenarioAMerged ∈ (reportPlan [scenarioA]).refactors := by
  refine ⟨by decide, by decide, ?_⟩
  exact (C9_remediation_partition.2.1 [scenarioA] scenarioAMerged (by decide)).2 (by decide)

/-! ### C10 -/

/-- C10: a tier/severity/confidence value outside the rank tables has rank
0, so it never displaces a recognized current value (though a conflict is
still recorded when the strings differ), while a recognized candidate
displaces an unrecognized current value; and the penalty tables fall back
to weight 1 and multipliers 0.3 and 0.5 — the weakest entries — for
unrecognized values instead of failing. -/
theorem C10_unrecognized_values :
    (∀ s : String, ∀ rk : List (String × ℕ), alookup rk s = none → dget rk s 0 = 0) ∧
    (∀ cur cand : String, ∀ rk : List (String × ℕ),
      dget rk cand 0 = 0 → stronger cur cand rk = cur) ∧
    (∀ cur cand : String, ∀ rk : List (String × ℕ),
      dget rk cur 0 = 0 → 0 < dget rk cand 0 → stronger cur cand rk = cand) ∧
    (∀ (e : Merged) (c : RawRecord),
      (merge_record e c).tier = stronger e.tier (newTier e c) TIER_RANK ∧
      (merge_record e c).severity = stronger e.severity (newSeverity e c) SEVERITY_RANK ∧
      (merge_record e c).confidence =
        stronger e.confidence (newConfidence e c) CONFIDENCE_RANK) ∧
    (∀ (e : Merged) (c : RawRecord), newTier e c ≠ e.tier →
      (merge_record e c).needs_validation = true) ∧
    (∀ s : String, alookup TIER_WEIGHT s = none → dget TIER_WEIGHT s 1 = 1) ∧
    (∀ s : String, alookup SEVERITY_MULTIPLIER s = none →
      dget SEVERITY_MULTIPLIER s (3/10) = 3/10) ∧
    (∀ s : String, alookup CONFIDENCE_MULTIPLIER s = none →
      dget CONFIDENCE_MULTIPLIER s (5/10) = 5/10) := by
  refine ⟨?_, ?_, ?_, ?_, ?_, ?_, ?_, ?_⟩
  · intro s rk h
    unfold dget
    rw [h]
    rfl
  · intro cur cand rk h
    unfold stronger
    rw [if_neg (by omega)]
  · intro cur cand rk h1 h2
    unfold stronger
    rw [if_pos (by omega)]
  · intro e c
    exact ⟨rfl, rfl, rfl⟩
  · intro e c h
    refine nv_of_conflicts e c ?_
    intro hnil
    simp only [conflictsOf, List.append_eq_nil] at hnil
    obtain ⟨⟨⟨⟨h1, _⟩, _⟩, _⟩, _⟩ := hnil
    rw [if_pos h] at h1
    simp at h1
  · intro s h
    unfold dget
    rw [h]
    rfl
  · intro s h
    unfold dget
    rw [h]
    rfl
  · intro s h
    unfold dget
    rw [h]
    rfl

/-- C10 witness: an unrecognized tier "T9" has rank 0, does not displace
"T2", is displaced by "T1", and carries weight 1 in the penalty tables. -/
theorem C10_unrecognized_values_witness :
    alookup TIER_RANK "T9" = none ∧ dget TIER_RANK "T9" (0 : ℕ) = 0 ∧
    stronger "T2" "T9" TIER_RANK = "T2" ∧
    stronger "T9" "T1" TIER_RANK = "T1" ∧
    alookup TIER_WEIGHT "T9" = none ∧ dget TIER_WEIGHT "T9" 1 = 1 := by
  refine ⟨rfl, C10_unrecognized_values.1 "T9" TIER_RANK rfl,
    C10_unrecognized_values.2.1 "T2" "T9" TIER_RANK (by decide),
    C10_unrecognized_values.2.2.1 "T9" "T1" TIER_RANK (by decide) (by decide),
    rfl, C10_unrecognized_values.2.2.2.2.2.1 "T9" rfl⟩

end MS
